import Mathlib

/-!
Verification of the production build pipeline of the SideQuestMarket
repository (`build-production.js`).  Text is modelled as `List Char`;
each regex `replace` pass of the script is embedded as an executable
scanning function implementing the leftmost-match semantics of the
JavaScript regular expressions actually used.  Recursions that skip a
variable number of characters take a fuel argument (always instantiated
with the length of the input, which suffices); this keeps every
definition kernel-reducible so that concrete inputs can be evaluated by
`decide`.

Note on fidelity: JavaScript `String.prototype.replace` gives `$`-escape
sequences in the replacement string a special meaning.  None of the
replacement strings appearing in `build-production.js` contains a `$`,
so replacement is modelled as literal insertion (the one replacement
that interpolates build output, the inlined critical CSS, is assumed
`$`-free).
-/

set_option maxRecDepth 100000

namespace SideQuest

/-- Character class of the JavaScript regex `\s` (the whitespace
characters that can occur in the repository's text files, plus the
common Unicode ones). -/
def jsSpace (c : Char) : Bool :=
  c == ' ' || c == '\t' || c == '\n' || c == '\r' || c == '\x0b' ||
  c == '\x0c' || c == '\xa0' || c == ' ' || c == ' ' || c == '﻿'

/-- Longest newline-free initial segment of a character list: the part of
the current line visible to a `[^\n]*` regex fragment. -/
def lineOf (s : List Char) : List Char := s.takeWhile (· ≠ '\n')

/-- The remainder after `lineOf`: from the first newline (inclusive) on. -/
def restOf (s : List Char) : List Char := s.dropWhile (· ≠ '\n')

def httpTok : List Char := ['h', 't', 't', 'p', ':']

def httpsTok : List Char := ['h', 't', 't', 'p', 's', ':']

/-- Whether the regex fragment `[^\n]*https?:` can match at the start of
`l` (a newline-free text): some occurrence of `http:` or `https:` lies
in `l`.  This is the lookahead text of the line-comment pass. -/
def hasUrl (l : List Char) : Bool :=
  l.tails.any (fun t => httpTok.isPrefixOf t || httpsTok.isPrefixOf t)

/-- Combined output/positions scanner for the first pass of
`minifyJSContent`, the regex `replace(/\/\/(?![^\n]*https?:)[^\n]*/g, '')`
of `build-production.js` line 146.  `i` is the index (in the original
text) of the head of `s`; the second component collects the start index
of every removed span.  At a `//` whose line remainder contains `http:`
or `https:` the negative lookahead fails, so the engine advances one
character; otherwise the match removes through the end of the line. -/
def stripLCSpans : Nat → Nat → List Char → List Char × List Nat
  | 0, _, s => (s, [])
  | fuel + 1, i, s =>
    match s with
    | [] => ([], [])
    | c :: rest =>
      if c = '/' ∧ rest.head? = some '/' then
        -- a `//` marker; `rest.tail` is the text after it
        if hasUrl (lineOf rest.tail) then
          let p := stripLCSpans fuel (i + 1) rest
          ('/' :: p.1, p.2)
        else
          let p := stripLCSpans fuel (i + 2 + (lineOf rest.tail).length) (restOf rest.tail)
          (p.1, i :: p.2)
      else
        let p := stripLCSpans fuel (i + 1) rest
        (c :: p.1, p.2)

/-- Output of the line-comment-stripping pass. -/
def stripLineComments (s : List Char) : List Char := (stripLCSpans s.length 0 s).1

/-- Start indices (into the input) of the spans removed by the
line-comment-stripping pass. -/
def removedStarts (s : List Char) : List Nat := (stripLCSpans s.length 0 s).2

/-- Remainder after the first occurrence of `*/`, if any: the lazy close
search of the block-comment regex `\/\*[\s\S]*?\*\//`. -/
def afterClose : List Char → Option (List Char)
  | '*' :: '/' :: r => some r
  | _ :: r => afterClose r
  | [] => none

/-- Scanner for `replace(/\/\*[\s\S]*?\*\//g, '')` (block comments,
used by both minifiers): at `/*`, if a closing `*/` follows, drop
through it, otherwise there is no match and the engine advances. -/
def removeBCAux : Nat → List Char → List Char
  | 0, s => s
  | fuel + 1, s =>
    match s with
    | [] => []
    | '/' :: '*' :: rest =>
      match afterClose rest with
      | some rem => removeBCAux fuel rem
      | none => '/' :: removeBCAux fuel ('*' :: rest)
    | c :: rest => c :: removeBCAux fuel rest

def removeBlockComments (s : List Char) : List Char := removeBCAux s.length s

/-- Scanner for `replace(/\s+/g, ' ')`: every maximal whitespace run
becomes a single space.  The flag records whether the previous character
was part of a run already collapsed. -/
def collapseWsAux : Bool → List Char → List Char
  | _, [] => []
  | prev, c :: r =>
    if jsSpace c then
      if prev then collapseWsAux true r else ' ' :: collapseWsAux true r
    else c :: collapseWsAux false r

def collapseWs (s : List Char) : List Char := collapseWsAux false s

/-- Scanner for `replace(/\s*([OPS])\s*/g, '$1')` where `OPS` is a
one-character class: a whitespace run (possibly empty) followed by an
operator character is replaced by the operator character alone together
with the whitespace run following it. -/
def tightenAux (ops : List Char) : Nat → List Char → List Char
  | 0, s => s
  | fuel + 1, s =>
    match s with
    | [] => []
    | c :: r =>
      if ops.contains c then c :: tightenAux ops fuel (r.dropWhile jsSpace)
      else if jsSpace c then
        match (c :: r).dropWhile jsSpace with
        | d :: t => if ops.contains d then d :: tightenAux ops fuel (t.dropWhile jsSpace)
                    else c :: tightenAux ops fuel r
        | [] => c :: tightenAux ops fuel r
      else c :: tightenAux ops fuel r

def tightenOps (ops : List Char) (s : List Char) : List Char := tightenAux ops s.length s

/-- JavaScript `String.prototype.trim`. -/
def trimWs (s : List Char) : List Char :=
  ((s.dropWhile jsSpace).reverse.dropWhile jsSpace).reverse

/-- Operator class of the JS minifier pass `[{}();,=+\-*/<>!&|]`. -/
def jsOps : List Char := ['{', '}', '(', ')', ';', ',', '=', '+', '-', '*', '/', '<', '>', '!', '&', '|']

/-- Operator class of the CSS minifier pass `[{}:;,>+~]`. -/
def cssOps : List Char := ['{', '}', ':', ';', ',', '>', '+', '~']

/-- The five passes of `minifyJSContent` (lines 143-155), in order:
line comments, block comments, whitespace collapse, operator
tightening, trim. -/
def minifyJSContent (js : List Char) : List Char :=
  trimWs (tightenOps jsOps (collapseWs (removeBlockComments (stripLineComments js))))

/-- Scanner for `replace(/;}/g, '}')` of the CSS minifier. -/
def semiBrace : List Char → List Char
  | ';' :: '}' :: r => '}' :: semiBrace r
  | c :: r => c :: semiBrace r
  | [] => []

/-- The five passes of `minifyCSSContent` (lines 101-113), in order:
block comments, whitespace collapse, structural-character tightening,
`;}` to `}`, trim. -/
def minifyCSSContent (css : List Char) : List Char :=
  trimWs (semiBrace (tightenOps cssOps (collapseWs (removeBlockComments css))))

/-! Critical-CSS extractor (`extractCriticalCSS`, lines 160-209). -/

/-- Single-rule matcher for the regex `SEL\s*{[^}]*}` at the start of
`s` (the selector having been regex-escaped in the script, it matches
literally).  On success, returns the matched text and the remainder of
`s` after the match. -/
def matchRule (sel s : List Char) : Option (List Char × List Char) :=
  if sel.isPrefixOf s then
    let t := s.drop sel.length
    let ws := t.takeWhile jsSpace
    match t.dropWhile jsSpace with
    | '{' :: v =>
      let body := v.takeWhile (· ≠ '}')
      match v.dropWhile (· ≠ '}') with
      | '}' :: rem => some (sel ++ ws ++ '{' :: (body ++ ['}']), rem)
      | _ => none
    | _ => none
  else none

/-- All matches of `SEL\s*{[^}]*}` in `s`, left to right, each scan
resuming directly after the previous match — the semantics of
`String.prototype.match` with the `g` flag. -/
def cssMatchesAux (sel : List Char) : Nat → List Char → List (List Char)
  | 0, _ => []
  | fuel + 1, s =>
    match s with
    | [] => []
    | c :: rest =>
      match matchRule sel (c :: rest) with
      | some (m, rem) => m :: cssMatchesAux sel fuel rem
      | none => cssMatchesAux sel fuel rest

def cssMatches (sel s : List Char) : List (List Char) := cssMatchesAux sel s.length s

def rootSel : List Char := ":root".toList

/-- The critical selector allowlist, in the order of lines 164-181. -/
def criticalSelectors : List (List Char) :=
  [rootSel, "html".toList, "body".toList,
   ".site-header".toList, ".main-nav".toList, ".nav-container".toList,
   ".logo".toList, ".nav-menu".toList, ".nav-link".toList,
   ".mobile-menu-toggle".toList, ".hamburger-line".toList,
   ".hero-section".toList, ".hero-container".toList, ".event-title".toList,
   ".hero-subtitle".toList, ".hero-date".toList, ".cta-button".toList,
   ".scroll-indicator".toList, ".scroll-arrow".toList,
   ".skip-link".toList, ".sr-only".toList,
   ".text-center".toList, ".text-white".toList, ".bg-purple".toList,
   ".font-bold".toList]

/-- The extractor: all `:root` blocks first (lines 190-193), then, for
each selector of the allowlist in order, all of its matches (lines
196-203).  No deduplication anywhere. -/
def extractCriticalCSS (css : List Char) : List Char :=
  (cssMatches rootSel css).flatten ++
    (criticalSelectors.map (fun sel => (cssMatches sel css).flatten)).flatten

/-! Asset bundler (`minifyCSS` lines 82-87 and `minifyJavaScript`
lines 124-129): concatenate the existing files of a fixed ordered list,
each preceded by a provenance comment and followed by a blank line. -/

/-- A file system: contents of existing paths. -/
def FS : Type := String → Option (List Char)

/-- The section the bundler appends for one existing file:
``combined += `/* ${file} */\n${content}\n\n` ``. -/
def fileSection (f : String) (c : List Char) : List Char :=
  ("/* " ++ f ++ " */\n").toList ++ c ++ ['\n', '\n']

/-- The bundling loop (`for (const file of list) if (fs.existsSync…)`),
as a left fold over the configured list. -/
def bundleFiles (files : List String) (fs : FS) : List Char :=
  files.foldl
    (fun acc f =>
      match fs f with
      | some c => acc ++ fileSection f c
      | none => acc)
    []

/-- The configured CSS source list (lines 14-21). -/
def cssFiles : List String :=
  ["css/main.css", "css/components.css", "css/responsive.css",
   "css/accessibility.css", "css/typography.css", "css/images.css"]

/-- The configured JS source list (lines 23-31). -/
def jsFiles : List String :=
  ["js/font-loader.js", "js/image-lazy-loading.js", "js/main.js",
   "js/navigation.js", "js/keyboard-navigation.js", "js/contact-form.js",
   "js/smooth-scroll.js"]

/-! HTML production rewriter (`updateHTMLForProduction`, lines 255-307). -/

/-- JavaScript `String.prototype.replace` with a plain-string pattern:
replace the first occurrence only (literal replacement, see the note in
the file header); a pattern with no occurrence leaves the text
unchanged. -/
def replaceFirst (pat rep : List Char) : List Char → List Char
  | [] => if pat.isPrefixOf ([] : List Char) then rep else []
  | c :: r =>
    if pat.isPrefixOf (c :: r) then rep ++ (c :: r).drop pat.length
    else c :: replaceFirst pat rep r

def linkPre : List Char := "<link rel=\"stylesheet\" href=\"css/".toList

def cssSuf : List Char := ".css".toList

/-- Matcher for the regex `<link rel="stylesheet" href="css\/[^"]+\.css">`
at the start of `s`: after the literal head, a nonempty run of
non-quote characters that ends in `.css`, closed by `">`.  Returns the
remainder after the match. -/
def matchLinkTag (s : List Char) : Option (List Char) :=
  if linkPre.isPrefixOf s then
    let t := s.drop linkPre.length
    let r := t.takeWhile (· ≠ '"')
    if cssSuf.isSuffixOf r ∧ 5 ≤ r.length then
      match t.drop r.length with
      | '"' :: '>' :: rem => some rem
      | _ => none
    else none
  else none

/-- Scanner for step 1, `replace(/<link rel="stylesheet" href="css\/[^"]+\.css">/g, '')`. -/
def removeLinkAux : Nat → List Char → List Char
  | 0, s => s
  | fuel + 1, s =>
    match s with
    | [] => []
    | c :: rest =>
      match matchLinkTag (c :: rest) with
      | some rem => removeLinkAux fuel rem
      | none => c :: removeLinkAux fuel rest

def removeLinkTags (s : List Char) : List Char := removeLinkAux s.length s

def scriptPre : List Char := "    <script src=\"js/".toList

def jsSuf : List Char := ".js".toList

def scriptSuf : List Char := "\"></script>\n".toList

/-- Matcher for the regex `    <script src="js\/[^"]+\.js"><\/script>\n`
at the start of `s` (note the mandatory four-space indentation and the
trailing newline). -/
def matchScriptTag (s : List Char) : Option (List Char) :=
  if scriptPre.isPrefixOf s then
    let t := s.drop scriptPre.length
    let r := t.takeWhile (· ≠ '"')
    if jsSuf.isSuffixOf r ∧ 4 ≤ r.length then
      if scriptSuf.isPrefixOf (t.drop r.length) then
        some ((t.drop r.length).drop scriptSuf.length)
      else none
    else none
  else none

/-- Scanner for step 4, `replace(/    <script src="js\/[^"]+\.js"><\/script>\n/g, '')`. -/
def removeScriptAux : Nat → List Char → List Char
  | 0, s => s
  | fuel + 1, s =>
    match s with
    | [] => []
    | c :: rest =>
      match matchScriptTag (c :: rest) with
      | some rem => removeScriptAux fuel rem
      | none => c :: removeScriptAux fuel rest

def removeScriptTags (s : List Char) : List Char := removeScriptAux s.length s

def headClose : List Char := "</head>".toList

def bodyClose : List Char := "</body>".toList

/-- Replacement of step 2: inline the critical CSS before `</head>`. -/
def styleIns (crit : List Char) : List Char :=
  "    <style>".toList ++ crit ++ "</style>\n</head>".toList

/-- Replacement of step 3: preload plus noscript fallback before `</head>`. -/
def preloadIns : List Char :=
  ("    <link rel=\"preload\" href=\"css/styles.min.css\" as=\"style\" onload=\"this.onload=null;this.rel=\x27stylesheet\x27\">\n"
    ++ "    <noscript><link rel=\"stylesheet\" href=\"css/styles.min.css\"></noscript>\n</head>").toList

/-- The tag inserted by step 5 (without the marker it is glued to). -/
def minScriptTag : List Char := "<script src=\"js/scripts.min.js\"></script>".toList

/-- Replacement of step 5: minified-bundle script before `</body>`. -/
def scriptIns : List Char :=
  "    ".toList ++ minScriptTag ++ "\n</body>".toList

def authorMeta : List Char := "<meta name=\"author\" content=\"Side Quest Market\">".toList

/-- Replacement of step 6: the author meta marker followed by the fixed
performance/caching block (lines 294-300). -/
def metaIns : List Char :=
  authorMeta ++
    ("\n    \n    <!-- Performance and caching meta tags -->\n"
      ++ "    <meta http-equiv=\"Cache-Control\" content=\"public, max-age=31536000\">\n"
      ++ "    <meta http-equiv=\"Expires\" content=\"Thu, 31 Dec 2025 23:59:59 GMT\">\n"
      ++ "    <link rel=\"dns-prefetch\" href=\"//cdn.emailjs.com\">\n"
      ++ "    <link rel=\"dns-prefetch\" href=\"//www.eventbrite.com\">").toList

/-- The opening tag of the step-2 inserted content: a substring of
`styleIns`, so its absence implies absence of the inserted style
block. -/
def styleOpen : List Char := "<style>".toList

/-- The opening of the step-3 inserted content: a substring of
`preloadIns`, so its absence implies absence of the inserted preload
link. -/
def preloadOpen : List Char := "<link rel=\"preload\"".toList

/-- The opening of the step-6 inserted caching block: a substring of
`metaIns` (beyond the marker itself), so its absence implies absence of
the inserted block. -/
def cacheMeta : List Char := "<meta http-equiv=\"Cache-Control\"".toList

/-- The six rewrite steps of `updateHTMLForProduction`, in source order. -/
def updateHTML (html crit : List Char) : List Char :=
  let h1 := removeLinkTags html
  let h2 := replaceFirst headClose (styleIns crit) h1
  let h3 := replaceFirst headClose preloadIns h2
  let h4 := removeScriptTags h3
  let h5 := replaceFirst bodyClose scriptIns h4
  replaceFirst authorMeta metaIns h5

/-- The first four rewrite steps (everything before the `</body>`
insertion), used to state the missing-marker claims. -/
def updateHTMLPre (html crit : List Char) : List Char :=
  removeScriptTags (replaceFirst headClose preloadIns
    (replaceFirst headClose (styleIns crit) (removeLinkTags html)))

/-! The whole pipeline (`build`, lines 39-55), as a function of the
file system.  The HTML stage reads `index.html`; if that file is
missing, `readFileSync` throws and the build aborts, hence the `Option`
result.  Earlier stages skip missing files silently. -/

/-- Output artifacts of one build: `styles.min.css`, `scripts.min.js`,
`critical.min.css`, `index.html`. -/
def buildArtifacts (fs : FS) : Option (List Char × List Char × List Char × List Char) :=
  match fs "index.html" with
  | none => none
  | some html =>
    let minCSS := minifyCSSContent (bundleFiles cssFiles fs)
    let minJS := minifyJSContent (bundleFiles jsFiles fs)
    let crit := extractCriticalCSS minCSS
    some (minCSS, minJS, crit, updateHTML html crit)

/-! Decidable text predicates used to state the HTML-rewriting claims. -/

/-- Some occurrence of `pat` in `s` is followed, after whitespace only,
by `marker`: the formal reading of "`pat` appears immediately before
`marker`" (tolerating the newline/indentation the rewriter inserts). -/
def immBefore (pat marker s : List Char) : Bool :=
  s.tails.any (fun t =>
    pat.isPrefixOf t && marker.isPrefixOf ((t.drop pat.length).dropWhile jsSpace))

/-- Number of occurrences (start positions) of `pat` in `s`. -/
def countOcc (pat s : List Char) : Nat :=
  s.tails.countP (fun t => pat.isPrefixOf t)

/-- The literal link tag of the C3 scenario. -/
def mainLinkTag : List Char :=
  "<link rel=\"stylesheet\" href=\"css/main.css\">".toList

/-- The literal script tag of the C3 scenario. -/
def mainScriptTag : List Char :=
  "<script src=\"js/main.js\"></script>".toList

/-- The HTML fixture used for the C3 scenario: it contains the
`css/main.css` link tag, the `js/main.js` script tag (in the indented,
newline-terminated form the removal regex expects), a `</head>` and a
`</body>`. -/
def c3Fixture : List Char :=
  ("<html><head>\n<link rel=\"stylesheet\" href=\"css/main.css\">\n</head>\n<body>\n"
    ++ "    <script src=\"js/main.js\"></script>\n</body></html>").toList

/-- The critical CSS inlined in the C3 scenario. -/
def c3Crit : List Char := ":root\x7b--x:1\x7d".toList

/-! Helper lemmas. -/

/-- A successful `matchRule` splits its input: the matched text is a
contiguous initial segment, and it is nonempty. -/
theorem matchRule_eq {sel s m rem : List Char}
    (h : matchRule sel s = some (m, rem)) :
    s = m ++ rem ∧ 2 ≤ m.length := by
  simp only [matchRule] at h
  split at h
  case isFalse => exact absurd h (by simp)
  case isTrue hp =>
    split at h
    case h_2 => exact absurd h (by simp)
    case h_1 v heq1 =>
      split at h
      case h_2 => exact absurd h (by simp)
      case h_1 rem' heq2 =>
        injection h with h'
        injection h' with h1 h2
        subst h1
        subst h2
        obtain ⟨u, hu⟩ := List.isPrefixOf_iff_prefix.mp hp
        have hdu : s.drop sel.length = u := by rw [← hu]; exact List.drop_left sel u
        have ht : s.drop sel.length =
            (s.drop sel.length).takeWhile jsSpace ++ ('{' :: v) := by
          conv_lhs => rw [← List.takeWhile_append_dropWhile (p := jsSpace)
            (l := s.drop sel.length)]
          rw [heq1]
        have hv : v = v.takeWhile (· ≠ '}') ++ ('}' :: rem') := by
          conv_lhs => rw [← List.takeWhile_append_dropWhile (p := (· ≠ '}')) (l := v)]
          rw [heq2]
        constructor
        · calc s = sel ++ u := hu.symm
            _ = sel ++ s.drop sel.length := by rw [hdu]
            _ = sel ++ ((s.drop sel.length).takeWhile jsSpace ++ ('{' :: v)) := by
                  conv_lhs => rw [ht]
            _ = _ := by
                  conv_lhs => rw [hv]
                  simp
        · simp; omega

/-- Every match collected by the rule scanner is an infix of the text it
scans. -/
theorem cssMatchesAux_sub (sel : List Char) :
    ∀ fuel s m, m ∈ cssMatchesAux sel fuel s → m <:+: s := by
  intro fuel
  induction fuel with
  | zero => intro s m h; simp [cssMatchesAux] at h
  | succ f ih =>
    intro s m h
    match s with
    | [] => simp [cssMatchesAux] at h
    | c :: rest =>
      rw [cssMatchesAux] at h
      cases hm : matchRule sel (c :: rest) with
      | some pr =>
        obtain ⟨m', rem⟩ := pr
        rw [hm] at h
        rcases List.mem_cons.mp h with rfl | h
        · exact ⟨[], rem, by simp [(matchRule_eq hm).1.symm]⟩
        · have h1 : m <:+: rem := ih rem m h
          have h2 : rem <:+: c :: rest :=
            (List.IsSuffix.isInfix ⟨m', (matchRule_eq hm).1.symm⟩)
          exact h1.trans h2
      | none =>
        rw [hm] at h
        exact List.infix_cons (ih rest m h)

theorem cssMatches_sub {sel s m : List Char} (h : m ∈ cssMatches sel s) :
    m <:+: s := cssMatchesAux_sub sel s.length s m h

/-- Structure of the extractor output: the dedicated `:root` pass comes
first, then the `:root` entry of the allowlist (an identical match
list), then the remaining selectors. -/
theorem extractCriticalCSS_eq (css : List Char) :
    extractCriticalCSS css =
      (cssMatches rootSel css).flatten ++
        ((cssMatches rootSel css).flatten ++
          ((criticalSelectors.drop 1).map
            (fun sel => (cssMatches sel css).flatten)).flatten) := by
  rw [extractCriticalCSS]
  rfl

/-- An infix stays an infix when text is prepended. -/
theorem infix_append_left {l x z : List Char} (h : l <:+: z) : l <:+: x ++ z := by
  obtain ⟨s, t, hst⟩ := h
  exact ⟨x ++ s, t, by rw [← hst]; simp⟩

/-- The bundler fold, rephrased declaratively: one section per existing
file, in list order. -/
theorem bundleFiles_eq (files : List String) (fs : FS) :
    bundleFiles files fs =
      (files.filterMap (fun f => (fs f).map (fileSection f))).flatten := by
  suffices h : ∀ (l : List String) (acc : List Char),
      l.foldl
        (fun acc f =>
          match fs f with
          | some c => acc ++ fileSection f c
          | none => acc)
        acc
        = acc ++ (l.filterMap (fun f => (fs f).map (fileSection f))).flatten by
    simpa [bundleFiles] using h files []
  intro l
  induction l with
  | nil => intro acc; simp
  | cons f rest ih =>
    intro acc
    simp only [List.foldl_cons]
    cases hf : fs f with
    | none => rw [ih]; simp [List.filterMap_cons, hf]
    | some c => rw [ih]; simp [List.filterMap_cons, hf, List.append_assoc]

/-- Dropping past the current line of a text lands in its `restOf`. -/
theorem drop_line_length (l : List Char) (k : Nat) :
    l.drop ((lineOf l).length + k) = (restOf l).drop k := by
  calc l.drop ((lineOf l).length + k)
      = (lineOf l ++ restOf l).drop ((lineOf l).length + k) := by
        rw [lineOf, restOf, List.takeWhile_append_dropWhile]
    _ = (restOf l).drop k := by rw [← List.drop_drop, List.drop_left]

/-- Every start position collected by the line-comment scanner points at
a `//` marker whose line remainder contains no `http:`/`https:`
occurrence (the negative lookahead of the regex). -/
theorem stripLCSpans_starts :
    ∀ (fuel i : Nat) (s : List Char), ∀ p ∈ (stripLCSpans fuel i s).2,
      ∃ k u, p = i + k ∧ s.drop k = '/' :: '/' :: u ∧ hasUrl (lineOf u) = false := by
  intro fuel
  induction fuel with
  | zero => intro i s p hp; simp [stripLCSpans] at hp
  | succ f ih =>
    intro i s p hp
    match s with
    | [] => simp [stripLCSpans] at hp
    | c :: rest =>
      rw [stripLCSpans] at hp
      by_cases hM : c = '/' ∧ rest.head? = some '/'
      · obtain ⟨rfl, hh⟩ := hM
        obtain ⟨t, rfl⟩ : ∃ t, rest = '/' :: t := by
          cases rest with
          | nil => simp at hh
          | cons r2 t => simp at hh; exact ⟨t, by rw [hh]⟩
        rw [if_pos ⟨rfl, rfl⟩] at hp
        by_cases hu : hasUrl (lineOf ('/' :: t).tail)
        · rw [if_pos hu] at hp
          obtain ⟨k, u, hk, hdrop, hurl⟩ := ih (i + 1) ('/' :: t) p hp
          exact ⟨k + 1, u, by omega, by simpa using hdrop, hurl⟩
        · rw [if_neg hu] at hp
          simp only [List.tail_cons] at hp
          rcases List.mem_cons.mp hp with rfl | hp
          · exact ⟨0, t, by omega, rfl, by simpa using hu⟩
          · obtain ⟨k, u, hk, hdrop, hurl⟩ :=
              ih (i + 2 + (lineOf t).length) (restOf t) p hp
            refine ⟨2 + (lineOf t).length + k, u, by omega, ?_, hurl⟩
            have h1 : ('/' :: '/' :: t).drop (2 + (lineOf t).length + k)
                = t.drop ((lineOf t).length + k) := by
              have he : 2 + (lineOf t).length + k
                  = ((lineOf t).length + k) + 1 + 1 := by omega
              rw [he]
              simp
            rw [h1, drop_line_length]
            simpa using hdrop
      · rw [if_neg hM] at hp
        obtain ⟨k, u, hk, hdrop, hurl⟩ := ih (i + 1) rest p hp
        exact ⟨k + 1, u, by omega, by simpa using hdrop, hurl⟩

/-- An infix stays an infix when text is appended. -/
theorem infix_append_right {l x z : List Char} (h : l <:+: x) : l <:+: x ++ z := by
  obtain ⟨s, t, hst⟩ := h
  exact ⟨s, t ++ z, by rw [← hst]; simp⟩

/-- A replacement whose pattern does not occur is a no-op. -/
theorem replaceFirst_of_absent {pat s : List Char} (rep : List Char)
    (h : ¬ (pat <:+: s)) : replaceFirst pat rep s = s := by
  induction s with
  | nil =>
    rw [replaceFirst]
    rw [if_neg]
    intro hp
    exact h (List.IsPrefix.isInfix (List.isPrefixOf_iff_prefix.mp hp))
  | cons c r ih =>
    rw [replaceFirst]
    rw [if_neg, ih (fun hc => h (List.infix_cons hc))]
    intro hp
    exact h (List.IsPrefix.isInfix (List.isPrefixOf_iff_prefix.mp hp))

/-- A replacement whose pattern occurs splits the text at some
occurrence: the text is `x ++ pat ++ y` and the result `x ++ rep ++ y`. -/
theorem replaceFirst_split {pat s : List Char} (rep : List Char)
    (h : pat <:+: s) :
    ∃ x y, s = x ++ (pat ++ y) ∧ replaceFirst pat rep s = x ++ (rep ++ y) := by
  induction s with
  | nil =>
    refine ⟨[], [], ?_, ?_⟩
    · have : pat = [] := List.infix_nil.mp h
      simp [this]
    · have hp : pat = [] := List.infix_nil.mp h
      rw [replaceFirst, if_pos (by simp [hp])]
      simp [hp]
  | cons c r ih =>
    by_cases hp : pat.isPrefixOf (c :: r)
    · obtain ⟨t, ht⟩ := List.isPrefixOf_iff_prefix.mp hp
      refine ⟨[], (c :: r).drop pat.length, ?_, ?_⟩
      · rw [← ht]
        simp [List.drop_left]
      · rw [replaceFirst, if_pos hp]
        simp
    · have hr : pat <:+: r := by
        rcases List.infix_cons_iff.mp h with hpre | hinf
        · exact absurd (List.isPrefixOf_iff_prefix.mpr hpre) hp
        · exact hinf
      obtain ⟨x, y, hs, hres⟩ := ih hr
      refine ⟨c :: x, y, ?_, ?_⟩
      · rw [List.cons_append, ← hs]
      · rw [replaceFirst, if_neg hp, hres]
        rfl

/-- An infix of an appended text lies in the left part, in the right
part, or straddles the boundary (splitting into a nonempty suffix of
the left and a nonempty prefix of the right). -/
theorem infix_append_cases {pat A B : List Char} (h : pat <:+: A ++ B) :
    pat <:+: A ∨ pat <:+: B ∨
      ∃ p1 p2, pat = p1 ++ p2 ∧ p1 ≠ [] ∧ p2 ≠ [] ∧ p1 <:+ A ∧ p2 <+: B := by
  obtain ⟨s, t, hst⟩ := h
  rcases List.append_eq_append_iff.mp hst with ⟨a, hA, hbd⟩ | ⟨c, hsp, hB⟩
  · exact Or.inl ⟨s, a, hA.symm⟩
  · rcases List.append_eq_append_iff.mp hsp with ⟨a₂, hA2, hpat⟩ | ⟨c₂, hs2, hc⟩
    · by_cases hae : a₂ = []
      · subst hae
        rw [List.nil_append] at hpat
        exact Or.inr (Or.inl ⟨[], t, by rw [hB, ← hpat, List.nil_append]⟩)
      · by_cases hce : c = []
        · subst hce
          rw [List.append_nil] at hpat
          exact Or.inl ⟨s, [], by rw [List.append_nil, hA2, hpat]⟩
        · exact Or.inr (Or.inr ⟨a₂, c, hpat, hae, hce, ⟨s, hA2.symm⟩, ⟨t, hB.symm⟩⟩)
    · exact Or.inr (Or.inl ⟨c₂, t, by rw [hB, hc]⟩)

/-- A prefix of `A ++ B` no longer than `A` is a prefix of `A`. -/
theorem prefix_of_append_of_le {p A B : List Char} (h : p <+: A ++ B)
    (hl : p.length ≤ A.length) : p <+: A := by
  obtain ⟨t, ht⟩ := h
  have h1 : p = (A ++ B).take p.length := by
    rw [← ht, List.take_left]
  have h2 : (A ++ B).take p.length = A.take p.length := by
    rw [List.take_append_eq_append_take, Nat.sub_eq_zero_of_le hl]
    simp
  rw [h1, h2]
  exact List.take_prefix _ _

/-- A suffix of `A ++ B` no longer than `B` is a suffix of `B`. -/
theorem suffix_of_append_of_le {p A B : List Char} (h : p <:+ A ++ B)
    (hl : p.length ≤ B.length) : p <:+ B := by
  rw [← List.reverse_prefix] at h ⊢
  rw [List.reverse_append] at h
  exact prefix_of_append_of_le h (by simpa using hl)

/-- No occurrence of `pat` survives or arises in `x ++ (r ++ y)` when it
occurs in none of the parts and cannot straddle either boundary of the
(sufficiently long) middle part `r`. -/
theorem not_infix_append3 {pat x r y : List Char}
    (hlen : pat.length ≤ r.length)
    (hx : ¬ (pat <:+: x)) (hy : ¬ (pat <:+: y)) (hr : ¬ (pat <:+: r))
    (hL : ∀ k < pat.length, 0 < k → ¬ (pat.drop k <+: r))
    (hR : ∀ k < pat.length, 0 < k → ¬ (pat.take k <:+ r)) :
    ¬ (pat <:+: x ++ (r ++ y)) := by
  intro h
  rcases infix_append_cases h with h1 | h2 | ⟨p1, p2, hsplit, hne1, hne2, _, hp2⟩
  · exact hx h1
  · rcases infix_append_cases h2 with h3 | h4 | ⟨q1, q2, hq, hqe1, hqe2, hq1, _⟩
    · exact hr h3
    · exact hy h4
    · have hq1take : pat.take q1.length = q1 := by
        rw [hq, List.take_left]
      have hlt : q1.length < pat.length := by
        rw [hq, List.length_append]
        have : 0 < q2.length := List.length_pos.mpr hqe2
        omega
      have hpos : 0 < q1.length := List.length_pos.mpr hqe1
      exact hR q1.length hlt hpos (by rw [hq1take]; exact hq1)
  · have hp2drop : pat.drop p1.length = p2 := by
      rw [hsplit, List.drop_left]
    have hlt : p1.length < pat.length := by
      rw [hsplit, List.length_append]
      have : 0 < p2.length := List.length_pos.mpr hne2
      omega
    have hple : p2.length ≤ r.length := by
      have : p2.length ≤ pat.length := by
        rw [hsplit, List.length_append]; omega
      omega
    have hp2r : p2 <+: r := prefix_of_append_of_le hp2 hple
    have hpos : 0 < p1.length := List.length_pos.mpr hne1
    exact hL p1.length hlt hpos (by rw [hp2drop]; exact hp2r)

/-- A first-occurrence replacement cannot create an occurrence of `pat`
when `pat` is absent from the text, absent from the replacement `rep`,
and cannot straddle either boundary of `rep`. -/
theorem replaceFirst_preserves_absent {pat m rep s : List Char}
    (hlen : pat.length ≤ rep.length)
    (hs : ¬ (pat <:+: s)) (hr : ¬ (pat <:+: rep))
    (hL : ∀ k < pat.length, 0 < k → ¬ (pat.drop k <+: rep))
    (hR : ∀ k < pat.length, 0 < k → ¬ (pat.take k <:+ rep)) :
    ¬ (pat <:+: replaceFirst m rep s) := by
  by_cases hm : m <:+: s
  · obtain ⟨x, y, hsplit, hres⟩ := replaceFirst_split rep hm
    rw [hres]
    have hx : ¬ (pat <:+: x) := fun hc =>
      hs (by rw [hsplit]; exact infix_append_right hc)
    have hy : ¬ (pat <:+: y) := fun hc =>
      hs (by rw [hsplit]; exact infix_append_left (infix_append_left hc))
    exact not_infix_append3 hlen hx hy hr hL hR
  · rw [replaceFirst_of_absent _ hm]
    exact hs

/-! Claim theorems. -/

/-- C1: evaluating the JS minifier on the spec's scenario line shows the
code removing everything from the `//` inside the URL string to the end
of the line (the lookahead finds no later `http:`/`https:` there), so
the string literal `"https://example.com"` is corrupted instead of
preserved: the output is `const url="https:` and the full literal is
not a substring of it. -/
theorem C1_minifier_corrupts_url_string :
    minifyJSContent "const url = \"https://example.com\"; // real comment".toList
        = "const url=\"https:".toList ∧
      ¬ ("\"https://example.com\"".toList <:+:
          minifyJSContent "const url = \"https://example.com\"; // real comment".toList) := by
  constructor
  · decide
  · decide

/-- C2: the line-comment-stripping pass never starts a removed span at a
`//` marker that is followed later on the same line by `http:` or
`https:`. -/
theorem C2_url_marker_never_starts_removed_span (s : List Char) (p : Nat) (u : List Char)
    (hdrop : s.drop p = '/' :: '/' :: u) (hurl : hasUrl (lineOf u) = true) :
    p ∉ removedStarts s := by
  intro hp
  obtain ⟨k, u', hk, hdrop', hurl'⟩ := stripLCSpans_starts s.length 0 s p hp
  have hpk : p = k := by omega
  subst hpk
  rw [hdrop] at hdrop'
  obtain ⟨-, rfl⟩ : ('/' : Char) = '/' ∧ u = u' := by
    exact ⟨rfl, by injection hdrop' with h1 h2; injection h2 with h3 h4⟩
  rw [hurl] at hurl'
  exact absurd hurl' (by simp)

/-- C2 witness: in a text whose first line-comment marker is followed by
a URL and whose second is not, the first marker (position 0) starts no
removed span. -/
theorem C2_url_marker_never_starts_removed_span_witness :
    (0 : Nat) ∉ removedStarts "// see https://x\n// y".toList :=
  C2_url_marker_never_starts_removed_span
    "// see https://x\n// y".toList 0 " see https://x\n// y".toList
    (by decide) (by decide)

/-- C4: for every minified CSS input containing a `:root` block and a
block of some other selector of the critical allowlist, the extractor
places the content of every matched `:root` block before the matched
content of the other selector: the output splits as `x ++ p ++ y` with
the root block `p` first and the other selector's match inside `y`. -/
theorem C4_root_blocks_precede_other_selectors (css sel : List Char)
    (hsel : sel ∈ criticalSelectors) (_hne : sel ≠ rootSel)
    (p : List Char) (hp : p ∈ cssMatches rootSel css)
    (q : List Char) (hq : q ∈ cssMatches sel css) :
    ∃ x y, extractCriticalCSS css = x ++ p ++ y ∧ q <:+: y := by
  obtain ⟨a, b, hab⟩ := List.infix_of_mem_flatten hp
  have hq1 : q <:+: (cssMatches sel css).flatten := List.infix_of_mem_flatten hq
  have hq2 : (cssMatches sel css).flatten
      <:+: (criticalSelectors.map (fun s => (cssMatches s css).flatten)).flatten :=
    List.infix_of_mem_flatten (List.mem_map.mpr ⟨sel, hsel, rfl⟩)
  refine ⟨a, b ++ (criticalSelectors.map (fun s => (cssMatches s css).flatten)).flatten,
    ?_, infix_append_left (hq1.trans hq2)⟩
  rw [extractCriticalCSS, ← hab]
  simp [List.append_assoc]

/-- C4 witness: a concrete minified CSS text with a `:root` block and a
`body` block, instantiating the theorem. -/
theorem C4_root_blocks_precede_other_selectors_witness :
    ∃ x y,
      extractCriticalCSS ":root\x7b--a:1\x7dbody\x7bx\x7d".toList
        = x ++ ":root\x7b--a:1\x7d".toList ++ y ∧ "body\x7bx\x7d".toList <:+: y :=
  C4_root_blocks_precede_other_selectors
    ":root\x7b--a:1\x7dbody\x7bx\x7d".toList "body".toList
    (by decide) (by decide)
    ":root\x7b--a:1\x7d".toList (by decide)
    "body\x7bx\x7d".toList (by decide)

/-- C5: every rule block the extractor emits appears verbatim as a
contiguous substring of the minified CSS input; the whole output is the
concatenation of a list of substrings of the input. -/
theorem C5_extract_output_is_concat_of_substrings (css : List Char) :
    ∃ L : List (List Char), extractCriticalCSS css = L.flatten ∧
      ∀ m ∈ L, m <:+: css := by
  refine ⟨cssMatches rootSel css ++
    (criticalSelectors.map (fun sel => cssMatches sel css)).flatten, ?_, ?_⟩
  · rw [extractCriticalCSS, List.flatten_append]
    congr 1
    rw [List.flatten_flatten, List.map_map]
    rfl
  · intro m hm
    rcases List.mem_append.mp hm with h | h
    · exact cssMatches_sub h
    · obtain ⟨l, hl, hml⟩ := List.mem_flatten.mp h
      obtain ⟨sel, _, rfl⟩ := List.mem_map.mp hl
      exact cssMatches_sub hml

/-- C6: the bundler's combined output is exactly one provenance-
commented section per listed file that exists, in input list order,
with no reordering and no deduplication. -/
theorem C6_bundle_sections_in_list_order (files : List String) (fs : FS) :
    bundleFiles files fs =
      (files.filterMap (fun f => (fs f).map (fileSection f))).flatten :=
  bundleFiles_eq files fs

/-- C7: a missing backing file does not fail the bundling step; its
section is omitted and the bundle equals that of the list with the
entry removed. -/
theorem C7_missing_file_skipped (xs ys : List String) (f₀ : String) (fs : FS)
    (h : fs f₀ = none) :
    bundleFiles (xs ++ f₀ :: ys) fs = bundleFiles (xs ++ ys) fs := by
  rw [bundleFiles_eq, bundleFiles_eq, List.filterMap_append, List.filterMap_append,
    List.filterMap_cons, h]
  rfl

/-- C7 witness: a two-file list with a missing middle entry. -/
theorem C7_missing_file_skipped_witness :
    bundleFiles (["css/main.css"] ++ "css/missing.css" :: ["css/components.css"])
        (fun f => if f = "css/main.css" then some ['a']
          else if f = "css/components.css" then some ['b'] else none)
      = bundleFiles (["css/main.css"] ++ ["css/components.css"])
        (fun f => if f = "css/main.css" then some ['a']
          else if f = "css/components.css" then some ['b'] else none) :=
  C7_missing_file_skipped ["css/main.css"] ["css/components.css"] "css/missing.css" _
    (by decide)

/-- C3 counterexample: the fixture contains the link tag, the script
tag, `</head>` and `</body>` — the hypotheses of the claim — yet the
rewriter output has no `<style>` block immediately before `</head>`
(even allowing whitespace in between): the preload and noscript links
sit between the inlined `</style>` and `</head>`. -/
theorem C3_style_not_immediately_before_head :
    (mainLinkTag <:+: c3Fixture ∧ mainScriptTag <:+: c3Fixture ∧
      headClose <:+: c3Fixture ∧ bodyClose <:+: c3Fixture) ∧
    immBefore "</style>".toList headClose (updateHTML c3Fixture c3Crit) = false := by
  constructor
  · refine ⟨?_, ?_, ?_, ?_⟩ <;> decide
  · decide

/-- C3 amended: for the scenario fixture, the rewriter output contains
neither original tag, contains exactly one
`<script src="js/scripts.min.js"></script>` and it is separated from
`</body>` only by whitespace, and contains the inlined `<style>` block
followed by the preload link, the noscript fallback and then `</head>`
(so the style block heads the block that ends at `</head>`, but the
noscript link — not the style block — is the tag immediately before
`</head>`). -/
theorem C3_rewrite_fixture_amended :
    ¬ (mainLinkTag <:+: updateHTML c3Fixture c3Crit) ∧
    ¬ (mainScriptTag <:+: updateHTML c3Fixture c3Crit) ∧
    countOcc minScriptTag (updateHTML c3Fixture c3Crit) = 1 ∧
    immBefore minScriptTag bodyClose (updateHTML c3Fixture c3Crit) = true ∧
    (("    <style>".toList ++ c3Crit ++ "</style>\n".toList ++ preloadIns)
      <:+: updateHTML c3Fixture c3Crit) := by
  refine ⟨?_, ?_, ?_, ?_, ?_⟩ <;> decide

/-- C8 counterexample: a document from which `</body>` is absent, yet
whose link-tag removal glues `</bo` and `dy>` into a fresh `</body>`
marker — so the script insertion fires and the inserted tag appears in
the output, contrary to the claim that for a source document without
the marker the inserted content is absent from the output. -/
theorem C8_removed_link_can_create_body_marker :
    ¬ (bodyClose <:+: "</bo<link rel=\"stylesheet\" href=\"css/a.css\">dy>".toList) ∧
      (minScriptTag <:+:
        updateHTML "</bo<link rel=\"stylesheet\" href=\"css/a.css\">dy>".toList []) := by
  constructor
  · decide
  · decide

/-- C8 amended, covering all three markers.  For every HTML source
document and critical CSS the rewriter raises no error; moreover, with
each marker's absence conditioned on the step-time text rather than the
source document (a removal can splice a marker together), each missing
marker makes its insertion a no-op while the other steps still apply:

1. if `</head>` is absent from the text after the link-removal step,
   the style and preload/noscript insertions are no-ops, the remaining
   steps are still applied, and if the inserted content (`<style>`, the
   preload link — substrings of the inserted text, so their absence
   implies its absence) is absent from the post-removal text it is
   absent from the output;
2. if `</body>` is absent from the text after all removal steps and
   that text does not already contain
   `<script src="js/scripts.min.js"></script>`, the script insertion is
   a no-op, the inserted tag is absent from the output, and the
   remaining final step is still applied;
3. if the author meta marker is absent from the text reaching the final
   step, that insertion is a no-op — the output equals the previous
   step's text — and if the caching block is absent there it is absent
   from the output. -/
theorem C8_missing_marker_insertion_noop (html crit : List Char) :
    (¬ (headClose <:+: removeLinkTags html) →
      updateHTML html crit
          = replaceFirst authorMeta metaIns (replaceFirst bodyClose scriptIns
              (removeScriptTags (removeLinkTags html))) ∧
        (¬ (styleOpen <:+: removeScriptTags (removeLinkTags html)) →
          ¬ (styleOpen <:+: updateHTML html crit)) ∧
        (¬ (preloadOpen <:+: removeScriptTags (removeLinkTags html)) →
          ¬ (preloadOpen <:+: updateHTML html crit))) ∧
    (¬ (bodyClose <:+: updateHTMLPre html crit) →
      ¬ (minScriptTag <:+: updateHTMLPre html crit) →
      updateHTML html crit
          = replaceFirst authorMeta metaIns (updateHTMLPre html crit) ∧
        ¬ (minScriptTag <:+: updateHTML html crit)) ∧
    (¬ (authorMeta <:+: replaceFirst bodyClose scriptIns (updateHTMLPre html crit)) →
      updateHTML html crit
          = replaceFirst bodyClose scriptIns (updateHTMLPre html crit) ∧
        (¬ (cacheMeta <:+: replaceFirst bodyClose scriptIns (updateHTMLPre html crit)) →
          ¬ (cacheMeta <:+: updateHTML html crit))) := by
  refine ⟨?_, ?_, ?_⟩
  · -- missing </head>: steps 2 and 3 are no-ops
    intro hhead
    have h2 : replaceFirst headClose (styleIns crit) (removeLinkTags html)
        = removeLinkTags html := replaceFirst_of_absent _ hhead
    have h3 : replaceFirst headClose preloadIns (removeLinkTags html)
        = removeLinkTags html := replaceFirst_of_absent _ hhead
    have hdef : updateHTML html crit
        = replaceFirst authorMeta metaIns (replaceFirst bodyClose scriptIns
            (removeScriptTags (replaceFirst headClose preloadIns
              (replaceFirst headClose (styleIns crit) (removeLinkTags html))))) := rfl
    have hupd : updateHTML html crit
        = replaceFirst authorMeta metaIns (replaceFirst bodyClose scriptIns
            (removeScriptTags (removeLinkTags html))) := by
      rw [hdef, h2, h3]
    refine ⟨hupd, ?_, ?_⟩
    · intro habs
      rw [hupd]
      exact replaceFirst_preserves_absent (by decide)
        (replaceFirst_preserves_absent (by decide) habs (by decide) (by decide) (by decide))
        (by decide) (by decide) (by decide)
    · intro habs
      rw [hupd]
      exact replaceFirst_preserves_absent (by decide)
        (replaceFirst_preserves_absent (by decide) habs (by decide) (by decide) (by decide))
        (by decide) (by decide) (by decide)
  · -- missing </body>: step 5 is a no-op
    intro hbody hscript
    have h5 : replaceFirst bodyClose scriptIns (updateHTMLPre html crit)
        = updateHTMLPre html crit := replaceFirst_of_absent _ hbody
    have hdef : updateHTML html crit
        = replaceFirst authorMeta metaIns
            (replaceFirst bodyClose scriptIns (updateHTMLPre html crit)) := rfl
    have hupd : updateHTML html crit
        = replaceFirst authorMeta metaIns (updateHTMLPre html crit) := by
      rw [hdef, h5]
    refine ⟨hupd, ?_⟩
    rw [hupd]
    exact replaceFirst_preserves_absent (by decide) hscript (by decide)
      (by decide) (by decide)
  · -- missing author meta marker: the final step is a no-op
    intro hmeta
    have hdef : updateHTML html crit
        = replaceFirst authorMeta metaIns
            (replaceFirst bodyClose scriptIns (updateHTMLPre html crit)) := rfl
    have hupd : updateHTML html crit
        = replaceFirst bodyClose scriptIns (updateHTMLPre html crit) := by
      rw [hdef, replaceFirst_of_absent _ hmeta]
    exact ⟨hupd, fun hc => by rw [hupd]; exact hc⟩

/-- C8 witness: a document with none of the three markers: the head
insertions, the body-script insertion and the meta insertion are all
no-ops, and neither the style block, nor the bundled script tag, nor
the caching block appears in the output. -/
theorem C8_missing_marker_insertion_noop_witness :
    (¬ (styleOpen <:+: updateHTML "<p>x</p>".toList [])) ∧
      (¬ (minScriptTag <:+: updateHTML "<p>x</p>".toList [])) ∧
      (updateHTML "<p>x</p>".toList []
        = replaceFirst bodyClose scriptIns (updateHTMLPre "<p>x</p>".toList [])) :=
  ⟨((C8_missing_marker_insertion_noop "<p>x</p>".toList []).1 (by decide)).2.1 (by decide),
    ((C8_missing_marker_insertion_noop "<p>x</p>".toList []).2.1 (by decide) (by decide)).2,
    ((C8_missing_marker_insertion_noop "<p>x</p>".toList []).2.2 (by decide)).1⟩

/-- C9: the build artifacts are a function of the configured input
files alone: two file systems that agree on the CSS source list, the JS
source list and `index.html` yield identical artifacts
(`styles.min.css`, `scripts.min.js`, `critical.min.css`, `index.html`).
In particular, running the pipeline twice on unchanged inputs is
byte-identical — the pure embedding has no other state to read. -/
theorem C9_build_deterministic (fs₁ fs₂ : FS)
    (hcss : ∀ f ∈ cssFiles, fs₁ f = fs₂ f)
    (hjs : ∀ f ∈ jsFiles, fs₁ f = fs₂ f)
    (hhtml : fs₁ "index.html" = fs₂ "index.html") :
    buildArtifacts fs₁ = buildArtifacts fs₂ := by
  have hb : ∀ (files : List String), (∀ f ∈ files, fs₁ f = fs₂ f) →
      bundleFiles files fs₁ = bundleFiles files fs₂ := by
    intro files hf
    rw [bundleFiles_eq, bundleFiles_eq]
    congr 1
    exact List.filterMap_congr (fun f hfm => by rw [hf f hfm])
  unfold buildArtifacts
  rw [hhtml, hb cssFiles hcss, hb jsFiles hjs]

/-- C9 witness: a file system differing from another only at a path the
build never reads gives the same artifacts. -/
theorem C9_build_deterministic_witness :
    buildArtifacts
        (fun f => if f = "index.html" then some "<p>x</p>".toList
          else if f = "README.md" then some ['r'] else none)
      = buildArtifacts
        (fun f => if f = "index.html" then some "<p>x</p>".toList else none) :=
  C9_build_deterministic _ _ (by decide) (by decide) (by decide)

/-- C10: because `:root` is both handled by the dedicated initial pass
and is itself the first entry of the critical selector list, and nothing
deduplicates, every matched `:root` block occurs (at least) twice in the
extractor output. -/
theorem C10_root_blocks_emitted_twice (css : List Char)
    (m : List Char) (hm : m ∈ cssMatches rootSel css) :
    ∃ x y z, extractCriticalCSS css = x ++ m ++ y ++ m ++ z := by
  obtain ⟨a, b, hab⟩ := List.infix_of_mem_flatten hm
  refine ⟨a, b ++ a,
    b ++ ((criticalSelectors.drop 1).map
      (fun sel => (cssMatches sel css).flatten)).flatten, ?_⟩
  rw [extractCriticalCSS_eq, ← hab]
  simp [List.append_assoc]

/-- C10 witness: the `:root` block of a concrete input occurs twice in
the extractor output. -/
theorem C10_root_blocks_emitted_twice_witness :
    ∃ x y z,
      extractCriticalCSS ":root\x7b--a:1\x7dbody\x7bx\x7d".toList
        = x ++ ":root\x7b--a:1\x7d".toList ++ y ++ ":root\x7b--a:1\x7d".toList ++ z :=
  C10_root_blocks_emitted_twice ":root\x7b--a:1\x7dbody\x7bx\x7d".toList
    ":root\x7b--a:1\x7d".toList (by decide)

end SideQuest
